import Mathlib

/-!
Verification of the liftover pipeline in
`src/sra/liftover_intropolis_hg38_to_hg19.py`.

Lines of text consumed from the sorted intermediate stream are represented by
their token lists (the result of `line.strip().split('\t')`).  A blank or
whitespace-only line, as well as the value returned by `readline()` at end of
file, strips to the empty string, and `''.split('\t') == ['']`, so both are
represented by the token list `[""]`; a line that is not blank never yields
that token list.  Python integers are represented by `Int`.
-/

namespace Liftover

/-- A row of the sorted intermediate stream: the token list obtained from a
line by `line.strip().split('\t')`. -/
abbrev Row := List String

/-- The four-fold `NA` tail appended to an output row when no liftover row is
available (`['NA'] * 4` in the source). -/
def NA4 : List String := ["NA", "NA", "NA", "NA"]

/-- The row printed by line 140 when the two lookahead buffers share a key:
`len(junction_1_tokens) > len(junction_2_tokens)` selects the longer row as
the hg19 row, and the output is `hg38_tokens + hg19_tokens[4:8]`. -/
def pairOut (j1 j2 : Row) : Row :=
  if j2.length < j1.length then j2 ++ (j1.drop 4).take 4
  else j1 ++ (j2.drop 4).take 4

/-- The merge-join loop of lines 131-162.  `j1` and `j2` are the two lookahead
buffers (`junction_1_tokens` / `junction_2_tokens`); `rs` is the rest of the
sorted stream.  `readline()` at end of file returns `''`, which the loop body
detects with `if not ...` before splitting; a blank line inside `rs` is the
token list `[""]` and is detected by the same test, so end of file is modelled
by exhausting `rs` and both tests compare against `[""]`. -/
def mergeLoop (j1 j2 : Row) (rs : List Row) : List Row :=
  if j1.take 4 = j2.take 4 then
    -- lines 132-140: liftover available
    match rs with
    | [] => [pairOut j1 j2]
    | r1 :: rs1 =>
      if r1 = [""] then
        -- line 142: end of file; nothing to print
        [pairOut j1 j2]
      else
        match rs1 with
        | [] => [pairOut j1 j2, r1 ++ NA4]
        | r2 :: rs2 =>
          if r2 = [""] then
            -- line 147: end of file; print junction 1 tokens and sign out
            [pairOut j1 j2, r1 ++ NA4]
          else
            pairOut j1 j2 :: mergeLoop r1 r2 rs2
  else
    -- lines 152-162: no liftover for junction 1; shift the window by one
    match rs with
    | [] => [j1 ++ NA4, j2 ++ NA4]
    | r :: rs1 =>
      if r = [""] then
        -- line 158: end of file; print new junction 1 tokens and sign out
        [j1 ++ NA4, j2 ++ NA4]
      else
        (j1 ++ NA4) :: mergeLoop j2 r rs1

/-- The merge-join emitter of lines 128-162: the first two `readline()` calls
fill the lookahead buffers without any end-of-file test (lines 129-130), so a
stream with fewer than two rows fills the missing buffer with `[""]`. -/
def mergeJoin : List Row → List Row
  | [] => mergeLoop [""] [""] []
  | [r1] => mergeLoop r1 [""] []
  | r1 :: r2 :: rs => mergeLoop r1 r2 rs

/-- The four mapped hg19 fields of a lift row (fields 5-8 of the 9-field row
written by lines 114-118). -/
structure LiftFields where
  chrom : String
  start : String
  stop : String
  strand : String
  deriving DecidableEq

/-- One original junction together with its stream contribution, modelling the
`CombinedKeyedRow` invariant of the sorted stream: exactly one 8-field origin
row, at most one 9-field lift row with the identical 4-field key, and the two
rows adjacent after sorting (`liftFirst` records which of the two orders the
external sort produced). -/
structure JGroup where
  chrom : String
  start : String
  stop : String
  strand : String
  leftMotif : String
  rightMotif : String
  samples : String
  readCounts : String
  lift : Option LiftFields
  liftFirst : Bool
  deriving DecidableEq

/-- The 4-field join key `(chrom, start, end, strand)` of a junction. -/
def JGroup.key (g : JGroup) : Row := [g.chrom, g.start, g.stop, g.strand]

/-- The junction's origin row: the 8 fields of the original intropolis line
(copied verbatim into the combined stream by lines 119-121). -/
def JGroup.originRow (g : JGroup) : Row :=
  [g.chrom, g.start, g.stop, g.strand,
   g.leftMotif, g.rightMotif, g.samples, g.readCounts]

/-- The junction's lift row: 4 key fields, 4 mapped fields, and the `FAKE`
marker, as written by lines 114-118. -/
def JGroup.liftRow (g : JGroup) (m : LiftFields) : Row :=
  [g.chrom, g.start, g.stop, g.strand, m.chrom, m.start, m.stop, m.strand, "FAKE"]

/-- The rows a junction contributes to the sorted stream, adjacent, in the
order chosen by the external sort. -/
def JGroup.rows (g : JGroup) : List Row :=
  match g.lift with
  | none => [g.originRow]
  | some m => if g.liftFirst then [g.liftRow m, g.originRow] else [g.originRow, g.liftRow m]

/-- A well-formed sorted stream: the concatenation of the junctions' row
groups, each group's rows adjacent. -/
def encode : List JGroup → List Row
  | [] => []
  | g :: gs => g.rows ++ encode gs

/-- The output row the specification expects for a junction: the origin row's
8 fields followed by the lift row's 4 mapped fields when a lift row exists,
and by `NA` four times otherwise. -/
def JGroup.expectedOut (g : JGroup) : Row :=
  g.originRow ++ (match g.lift with
                  | none => NA4
                  | some m => [m.chrom, m.start, m.stop, m.strand])

/-- Python's `';'.join(parts)` (line 84). -/
def joinSemi : List String → String
  | [] => ""
  | [p] => p
  | p :: ps => p ++ ";" ++ joinSemi ps

/-- Python's `s.split(';')` (line 112), on the character list of the string:
`''.split(';') == ['']`, and each `';'` starts a new part. -/
def splitSemiChars : List Char → List (List Char)
  | [] => [[]]
  | c :: cs =>
    if c = ';' then [] :: splitSemiChars cs
    else
      match splitSemiChars cs with
      | [] => [[c]]
      | p :: ps => (c :: p) :: ps

/-- Python's `s.split(';')` (line 112). -/
def splitSemi (s : String) : List String :=
  (splitSemiChars s.data).map fun cs => String.mk cs

/-- The synthetic junction name of line 84:
`';'.join([str(i), chrom, start, end, strand])`, where `start` is the already
decremented coordinate `str(int(tokens[1]) - 1)` of line 80 and `end` and
`strand` are the raw input tokens. `s` is the parsed original 1-based start
`int(tokens[1])`. -/
def junctionName (i : Nat) (chrom : String) (s : Int) (endTok strand : String) : String :=
  joinSemi [toString i, chrom, toString (s - 1), endTok, strand]

/-- Numeric value of a list of decimal digits. -/
def digitsVal (cs : List Char) : Nat :=
  cs.foldl (fun n c => n * 10 + (c.toNat - '0'.toNat)) 0

/-- Python's `int(s)` on the token strings of this pipeline: an optional minus
sign followed by decimal digits; `none` models the `ValueError` Python raises
on anything else. -/
def pyInt? (s : String) : Option Int :=
  match s.data with
  | [] => none
  | '-' :: cs =>
    if cs ≠ [] ∧ cs.all Char.isDigit then some (-(digitsVal cs : Int)) else none
  | cs => if cs.all Char.isDigit then some ((digitsVal cs : Int)) else none

/-- The Record Normalizer body for one input line (lines 77-87), given the
line's token list.  Index accesses and `int()` are evaluated in Python's
order: `tokens[0]`, `int(tokens[1])`, `tokens[2]`, `tokens[3]`; a missing
index raises `IndexError` and a non-integer coordinate raises `ValueError`,
either of which aborts the run.  On success the printed BED line has the six
fields of line 85. -/
def normalizeRecord (i : Nat) (tokens : List String) : Except String Row :=
  match tokens.get? 0 with
  | none => .error "IndexError"
  | some chrom =>
    match tokens.get? 1 with
    | none => .error "IndexError"
    | some startTok =>
      match pyInt? startTok with
      | none => .error "ValueError"
      | some s =>
        match tokens.get? 2 with
        | none => .error "IndexError"
        | some endTok =>
          match tokens.get? 3 with
          | none => .error "IndexError"
          | some strand =>
            .ok [chrom, toString (s - 1), endTok,
                 "info_" ++ junctionName i chrom s endTok strand, "1", strand]

/-- `True` exactly on `Except.ok` results. -/
def isOkB {α : Type} : Except String α → Bool
  | .ok _ => true
  | .error _ => false

/-- The Stream Merger's reconstruction of one lift row from a line of the
external mapper's output file (lines 106-118): unpack the first six fields,
split the synthetic name on `';'` into exactly five parts, parse the stored
hg38 start and the mapped start as integers, and re-add 1 to both; a shape or
parse failure raises `ValueError` and aborts the run. -/
def reconstructLift (tokens : List String) : Except String Row :=
  match tokens.take 6 with
  | [chrom, startTok, endTok, name, _score, strand] =>
    match splitSemi name with
    | [_ord, hgChrom, hgStartTok, hgEnd, hgStrand] =>
      match pyInt? hgStartTok, pyInt? startTok with
      | some hgStart, some s =>
        .ok [hgChrom, toString (hgStart + 1), hgEnd, hgStrand,
             chrom, toString (s + 1), endTok, strand, "FAKE"]
      | _, _ => .error "ValueError"
    | _ => .error "ValueError"
  | _ => .error "ValueError"

/-- The start conversion of line 80: `int(tokens[1]) - 1`, the 1-based
inclusive to 0-based half-open transform applied by the Record Normalizer. -/
def normalizeStart (s : Int) : Int := s - 1

/-- The start restoration of line 115: `hg38_start + 1`, applied by the
Stream Merger to the value parsed back from the synthetic name. -/
def restoreStart (h : Int) : Int := h + 1

/-- The pipeline stages after the Record Normalizer (lines 89-162).
`liftoverExit` is the exit status of the external mapper: line 89 binds
`subprocess.call`'s return value to `liftover_process` and the status is
never inspected afterwards, so execution always continues into the stream
merge.  `sortExit` is the exit status of the external sort: line 123 uses
`subprocess.check_call`, which raises `CalledProcessError` on a non-zero
status.  The mapper's output file is abstracted as the token lists
`hg19Lines`, the original input as `intropolisLines`, and the external sort
as the function `sortFn`. -/
def runPipeline (liftoverExit sortExit : Int) (hg19Lines : List (List String))
    (intropolisLines : List Row) (sortFn : List Row → List Row) :
    Except String (List Row) :=
  let _liftover_process := liftoverExit
  match hg19Lines.mapM reconstructLift with
  | .error e => .error e
  | .ok liftRows =>
    if sortExit = 0 then
      .ok (mergeJoin (sortFn (liftRows ++ intropolisLines)))
    else
      .error "CalledProcessError"

/-- Concrete mapped fields used by witnesses. -/
def mFix : LiftFields := { chrom := "chr1", start := "50", stop := "150", strand := "+" }

/-- A concrete junction whose liftover succeeded, with the origin row first in
the sorted stream. -/
def gPairedFix : JGroup :=
  { chrom := "chr1", start := "100", stop := "200", strand := "+",
    leftMotif := "GT", rightMotif := "AG", samples := "0,1", readCounts := "5,10",
    lift := some mFix, liftFirst := false }

/-- A concrete junction the external mapper dropped. -/
def gPlainFix : JGroup :=
  { chrom := "chr2", start := "30", stop := "40", strand := "-",
    leftMotif := "CT", rightMotif := "AC", samples := "2", readCounts := "7",
    lift := none, liftFirst := false }

/-- Origin row of a `+`-strand junction at `(chr1, 5, 10)`. -/
def oPlus : Row := ["chr1", "5", "10", "+", "GT", "AG", "0", "5"]

/-- Origin row of a `-`-strand junction at the same `(chrom, start, end)`. -/
def oMinus : Row := ["chr1", "5", "10", "-", "CT", "AC", "1", "7"]

/-- Lift row of the `+`-strand junction at `(chr1, 5, 10)`. -/
def lPlus : Row := ["chr1", "5", "10", "+", "chrX", "6", "11", "+", "FAKE"]

/-- Lift row of the `-`-strand junction at `(chr1, 5, 10)`. -/
def lMinus : Row := ["chr1", "5", "10", "-", "chrX", "6", "11", "-", "FAKE"]

/-- A lift row with no matching origin row anywhere in the stream. -/
def loneLift : Row := ["chr1", "100", "200", "+", "chr1", "50", "150", "+", "FAKE"]

/-- A concrete 8-field origin row. -/
def originFix : Row := ["chr1", "100", "200", "+", "GT", "AG", "0,1", "5,10"]

/-! ## Properties of the stream encoding -/

theorem rows_ne_nil (g : JGroup) : g.rows ≠ [] := by
  unfold JGroup.rows
  cases g.lift with
  | none => simp
  | some m => cases g.liftFirst <;> simp

theorem encode_eq_nil_iff (gs : List JGroup) : encode gs = [] ↔ gs = [] := by
  cases gs with
  | nil => simp [encode]
  | cons g gs =>
    simp only [encode, List.append_eq_nil]
    exact ⟨fun h => absurd h.1 (rows_ne_nil g), fun h => by simp at h⟩

theorem length_of_mem_rows {r : Row} {g : JGroup} (h : r ∈ g.rows) :
    r.length = 8 ∨ r.length = 9 := by
  unfold JGroup.rows at h
  cases hl : g.lift with
  | none =>
    rw [hl] at h
    simp only [List.mem_singleton] at h
    subst h
    left; rfl
  | some m =>
    rw [hl] at h
    cases hf : g.liftFirst <;> rw [hf] at h <;>
      simp only [if_true, if_false, Bool.false_eq_true, List.mem_cons,
        List.mem_singleton, List.not_mem_nil, or_false] at h <;>
      rcases h with h | h <;> subst h <;>
      simp [JGroup.originRow, JGroup.liftRow]

theorem mem_encode_ne_blank {r : Row} {gs : List JGroup} (h : r ∈ encode gs) :
    r ≠ [""] := by
  induction gs with
  | nil => simp [encode] at h
  | cons g gs ih =>
    simp only [encode, List.mem_append] at h
    rcases h with h | h
    · rcases length_of_mem_rows h with h' | h' <;>
        (intro hb; subst hb; simp at h')
    · exact ih h

theorem take_four_originRow (g : JGroup) : g.originRow.take 4 = g.key := rfl

theorem take_four_liftRow (g : JGroup) (m : LiftFields) :
    (g.liftRow m).take 4 = g.key := rfl

theorem encode_cons_head (g : JGroup) (gs : List JGroup) :
    ∃ r rest, encode (g :: gs) = r :: rest ∧ r.take 4 = g.key := by
  unfold encode JGroup.rows
  cases g.lift with
  | none => exact ⟨g.originRow, encode gs, rfl, rfl⟩
  | some m =>
    cases hf : g.liftFirst
    · exact ⟨g.originRow, [g.liftRow m] ++ encode gs, by simp, rfl⟩
    · exact ⟨g.liftRow m, [g.originRow] ++ encode gs, by simp, rfl⟩

theorem encode_eq_singleton {g : JGroup} {gs : List JGroup} {r : Row}
    (h : encode (g :: gs) = [r]) :
    gs = [] ∧ g.lift = none ∧ r = g.originRow := by
  unfold encode JGroup.rows at h
  cases hl : g.lift with
  | none =>
    rw [hl] at h
    simp only [List.singleton_append, List.cons.injEq] at h
    exact ⟨(encode_eq_nil_iff gs).mp h.2, rfl, h.1.symm⟩
  | some m =>
    rw [hl] at h
    cases hf : g.liftFirst <;> rw [hf] at h <;> simp at h


/-! ## Step lemmas for the merge-join loop -/

theorem mergeJoin_cons_cons (r1 r2 : Row) (rs : List Row) :
    mergeJoin (r1 :: r2 :: rs) = mergeLoop r1 r2 rs := rfl

theorem mergeLoop_pair_nil {j1 j2 : Row} (hk : j1.take 4 = j2.take 4) :
    mergeLoop j1 j2 [] = [pairOut j1 j2] := by
  rw [mergeLoop, if_pos hk]

theorem mergeLoop_pair_one {j1 j2 r1 : Row} (hk : j1.take 4 = j2.take 4)
    (h1 : r1 ≠ [""]) : mergeLoop j1 j2 [r1] = [pairOut j1 j2, r1 ++ NA4] := by
  rw [mergeLoop, if_pos hk]
  simp [h1]

theorem mergeLoop_pair_cons {j1 j2 r1 r2 : Row} {rs2 : List Row}
    (hk : j1.take 4 = j2.take 4) (h1 : r1 ≠ [""]) (h2 : r2 ≠ [""]) :
    mergeLoop j1 j2 (r1 :: r2 :: rs2) = pairOut j1 j2 :: mergeLoop r1 r2 rs2 := by
  conv_lhs => rw [mergeLoop]
  rw [if_pos hk]
  simp [h1, h2]

theorem mergeLoop_else_nil {j1 j2 : Row} (hk : j1.take 4 ≠ j2.take 4) :
    mergeLoop j1 j2 [] = [j1 ++ NA4, j2 ++ NA4] := by
  rw [mergeLoop, if_neg hk]

theorem mergeLoop_else_cons {j1 j2 r : Row} {rs1 : List Row}
    (hk : j1.take 4 ≠ j2.take 4) (hr : r ≠ [""]) :
    mergeLoop j1 j2 (r :: rs1) = (j1 ++ NA4) :: mergeLoop j2 r rs1 := by
  conv_lhs => rw [mergeLoop.eq_def]
  rw [if_neg hk]
  simp [hr]

theorem expectedOut_none {g : JGroup} (hl : g.lift = none) :
    g.expectedOut = g.originRow ++ NA4 := by
  simp [JGroup.expectedOut, hl]

theorem pairOut_lift_origin {g : JGroup} {m : LiftFields} (hl : g.lift = some m) :
    pairOut (g.liftRow m) g.originRow = g.expectedOut := by
  simp [pairOut, JGroup.liftRow, JGroup.originRow, JGroup.expectedOut, hl]

theorem pairOut_origin_lift {g : JGroup} {m : LiftFields} (hl : g.lift = some m) :
    pairOut g.originRow (g.liftRow m) = g.expectedOut := by
  simp [pairOut, JGroup.liftRow, JGroup.originRow, JGroup.expectedOut, hl]

theorem rows_pair {g : JGroup} {m : LiftFields} (hl : g.lift = some m) :
    ∃ a b, g.rows = [a, b] ∧ a.take 4 = g.key ∧ b.take 4 = g.key ∧
      pairOut a b = g.expectedOut := by
  cases hf : g.liftFirst
  · exact ⟨g.originRow, g.liftRow m, by simp [JGroup.rows, hl, hf], rfl, rfl,
      pairOut_origin_lift hl⟩
  · exact ⟨g.liftRow m, g.originRow, by simp [JGroup.rows, hl, hf], rfl, rfl,
      pairOut_lift_origin hl⟩

/-- On a well-formed sorted stream of at least two rows with adjacent
junctions' keys distinct, the merge-join emitter produces exactly the expected
output row of each junction, in stream order. -/
theorem mergeJoin_encode :
    ∀ (gs : List JGroup),
      List.Chain' (fun a b => a.key ≠ b.key) gs →
      2 ≤ (encode gs).length →
      mergeJoin (encode gs) = gs.map JGroup.expectedOut := by
  intro gs
  induction gs with
  | nil => intro _ hlen; simp [encode] at hlen
  | cons g gs ih =>
    intro hchain hlen
    cases hl : g.lift with
    | some m =>
      obtain ⟨a, b, hab, ha4, hb4, hpo⟩ := rows_pair hl
      have he : encode (g :: gs) = a :: b :: encode gs := by
        simp [encode, hab]
      rw [he, mergeJoin_cons_cons]
      have hk : a.take 4 = b.take 4 := by rw [ha4, hb4]
      rcases hE : encode gs with _ | ⟨r1, rs1⟩
      · have hgs : gs = [] := (encode_eq_nil_iff gs).mp hE
        subst hgs
        rw [mergeLoop_pair_nil hk, hpo]
        simp
      · have hr1 : r1 ≠ [""] :=
          mem_encode_ne_blank (by rw [hE]; exact List.mem_cons_self _ _)
        rcases rs1 with _ | ⟨r2, rs2⟩
        · rcases gs with _ | ⟨g2, gs2⟩
          · simp [encode] at hE
          · obtain ⟨hgs2, hl2, hr1o⟩ := encode_eq_singleton hE
            subst hgs2; subst hr1o
            rw [mergeLoop_pair_one hk hr1, hpo]
            simp [expectedOut_none hl2]
        · have hr2 : r2 ≠ [""] :=
            mem_encode_ne_blank
              (by rw [hE]; exact List.mem_cons_of_mem _ (List.mem_cons_self _ _))
          rw [mergeLoop_pair_cons hk hr1 hr2, hpo, ← mergeJoin_cons_cons, ← hE,
            ih hchain.tail (by rw [hE]; simp)]
          simp
    | none =>
      have he : encode (g :: gs) = g.originRow :: encode gs := by
        simp [encode, JGroup.rows, hl]
      rcases gs with _ | ⟨g2, gs2⟩
      · simp [encode, JGroup.rows, hl] at hlen
      · obtain ⟨r1, rest1, hE2, hr1key⟩ := encode_cons_head g2 gs2
        have hne : g.key ≠ g2.key := (List.chain'_cons.mp hchain).1
        have hkne : g.originRow.take 4 ≠ r1.take 4 := by
          rw [take_four_originRow, hr1key]; exact hne
        have he2 : encode (g :: g2 :: gs2) = g.originRow :: r1 :: rest1 := by
          rw [he, hE2]
        rw [he2, mergeJoin_cons_cons]
        have hr1 : r1 ≠ [""] :=
          mem_encode_ne_blank (by rw [hE2]; exact List.mem_cons_self _ _)
        rcases rest1 with _ | ⟨r2, rest2⟩
        · obtain ⟨hgs2, hl2, hr1o⟩ := encode_eq_singleton hE2
          subst hgs2; subst hr1o
          rw [mergeLoop_else_nil hkne]
          simp [expectedOut_none hl, expectedOut_none hl2]
        · have hr2 : r2 ≠ [""] :=
            mem_encode_ne_blank
              (by rw [hE2]; exact List.mem_cons_of_mem _ (List.mem_cons_self _ _))
          rw [mergeLoop_else_cons hkne hr2, ← mergeJoin_cons_cons, ← hE2,
            ih (List.chain'_cons.mp hchain).2 (by rw [hE2]; simp)]
          simp [expectedOut_none hl]

theorem take_four_expectedOut (g : JGroup) : g.expectedOut.take 4 = g.key := rfl

theorem mergeJoin_nil_eq : mergeJoin [] = mergeLoop [""] [""] [] := rfl

theorem mergeJoin_one_eq (r : Row) : mergeJoin [r] = mergeLoop r [""] [] := rfl

theorem take_four_eq_blank_iff {r : Row} : r.take 4 = [""] ↔ r = [""] := by
  match r with
  | [] => simp
  | [a] => simp [List.take]
  | a :: b :: t => simp [List.take]

/-- A single-row stream: the row is printed unmapped, followed by a spurious
row built from the never-checked second lookahead buffer. -/
theorem mergeJoin_single {r : Row} (h : r ≠ [""]) :
    mergeJoin [r] = [r ++ NA4, [""] ++ NA4] := by
  have hk : r.take 4 ≠ (([""] : Row)).take 4 := by
    simp only [List.take]
    exact fun he => h (take_four_eq_blank_iff.mp (by simpa using he))
  rw [mergeJoin_one_eq, mergeLoop_else_nil hk]

theorem countP_key_eq_one {gs : List JGroup} {g : JGroup}
    (hu : gs.Pairwise (fun a b => a.key ≠ b.key)) (hg : g ∈ gs) :
    gs.countP (fun g2 => decide (g2.key = g.key)) = 1 := by
  induction gs with
  | nil => simp at hg
  | cons a gs ih =>
    rw [List.pairwise_cons] at hu
    rcases List.mem_cons.mp hg with h | h
    · subst h
      rw [List.countP_cons]
      have h0 : gs.countP (fun g2 => decide (g2.key = g.key)) = 0 := by
        rw [List.countP_eq_zero]
        intro g2 hg2
        simpa using fun he => hu.1 g2 hg2 he.symm
      simp [h0]
    · have hne : a.key ≠ g.key := hu.1 g h
      rw [List.countP_cons, ih hu.2 h]
      simp [hne]

theorem filter_key_eq_singleton {gs : List JGroup} {g : JGroup}
    (hu : gs.Pairwise (fun a b => a.key ≠ b.key)) (hg : g ∈ gs) :
    gs.filter (fun g2 => decide (g2.key = g.key)) = [g] := by
  induction gs with
  | nil => simp at hg
  | cons a gs ih =>
    rw [List.pairwise_cons] at hu
    rcases List.mem_cons.mp hg with h | h
    · subst h
      rw [List.filter_cons]
      have h0 : gs.filter (fun g2 => decide (g2.key = g.key)) = [] := by
        rw [List.filter_eq_nil_iff]
        intro g2 hg2
        simpa using fun he => hu.1 g2 hg2 he.symm
      simp [h0]
    · have hne : a.key ≠ g.key := hu.1 g h
      rw [List.filter_cons, ih hu.2 h]
      simp [hne]

/-- A stream with fewer than two rows comes from a single junction the mapper
dropped. -/
theorem encode_short (g1 : JGroup) (gs1 : List JGroup)
    (h : (encode (g1 :: gs1)).length < 2) :
    gs1 = [] ∧ g1.lift = none := by
  cases hl : g1.lift with
  | some m =>
    obtain ⟨a, b, hab, _, _, _⟩ := rows_pair hl
    rw [encode, hab] at h
    simp only [List.cons_append, List.length_cons] at h
    omega
  | none =>
    rw [encode, JGroup.rows, hl] at h
    simp only [List.singleton_append, List.length_cons] at h
    have : (encode gs1).length = 0 := by omega
    exact ⟨(encode_eq_nil_iff gs1).mp (List.length_eq_zero.mp this), rfl⟩

theorem two_le_encode_of_lift {gs : List JGroup} {g : JGroup} {m : LiftFields}
    (hg : g ∈ gs) (hl : g.lift = some m) : 2 ≤ (encode gs).length := by
  induction gs with
  | nil => simp at hg
  | cons a gs ih =>
    rcases List.mem_cons.mp hg with h | h
    · subst h
      obtain ⟨x, y, hxy, _, _, _⟩ := rows_pair hl
      simp [encode, hxy]
    · have h2 := ih h
      rw [encode, List.length_append]
      omega

/-! ## Claim theorems -/

/-- Claim C1: for every input junction — assuming every junction's 4-field key
`(chrom, start, end, strand)` is unique, the sorted stream keeps same-key rows
adjacent, and start coordinates are integer strings as the data model
requires — the merge-join emitter produces exactly one output row whose first
four fields equal that junction's key: no junction is dropped and none is
duplicated, for lift-paired and unpaired junctions alike, including the
unmatched tail of the stream. -/
theorem junction_cardinality (gs : List JGroup)
    (hnum : ∀ g ∈ gs, (pyInt? g.start).isSome)
    (hu : gs.Pairwise (fun a b => a.key ≠ b.key))
    (g : JGroup) (hg : g ∈ gs) :
    (mergeJoin (encode gs)).countP (fun r => decide (r.take 4 = g.key)) = 1 := by
  by_cases hlen : 2 ≤ (encode gs).length
  · rw [mergeJoin_encode gs hu.chain' hlen, List.countP_map]
    simp only [Function.comp_def, take_four_expectedOut]
    exact countP_key_eq_one hu hg
  · rcases gs with _ | ⟨g1, gs1⟩
    · simp at hg
    · obtain ⟨hgs1, hl1⟩ := encode_short g1 gs1 (by omega)
      subst hgs1
      have hgeq : g = g1 := by simpa using hg
      subst hgeq
      have henc : encode [g] = [g.originRow] := by
        simp [encode, JGroup.rows, hl1]
      rw [henc, mergeJoin_single (by simp [JGroup.originRow])]
      have hyes : (g.originRow ++ NA4).take 4 = g.key := rfl
      have hnotNA : ¬((([""] : Row) ++ NA4).take 4 = g.key) := by
        simp only [NA4, JGroup.key, List.cons_append, List.nil_append,
          List.take, List.cons.injEq, and_true]
        intro heq
        have hs : g.start = "NA" := heq.2.1.symm
        have hnum1 := hnum g (by simp)
        rw [hs] at hnum1
        exact absurd hnum1 (by decide)
      simp only [List.countP_cons, List.countP_nil, hyes]
      simp only [decide_eq_true_eq]
      rw [if_neg hnotNA]
      simp

/-- Witness for `junction_cardinality` at a concrete two-junction stream. -/
theorem junction_cardinality_witness :
    (mergeJoin (encode [gPairedFix, gPlainFix])).countP
        (fun r => decide (r.take 4 = gPairedFix.key)) = 1 :=
  junction_cardinality [gPairedFix, gPlainFix] (by decide) (by decide)
    gPairedFix (by decide)

/-- Claim C2: under the same well-formedness assumptions, the unique output
row matching a junction's key consists of the origin row's 8 fields followed
by the lift row's fields 5-8 (the mapped coordinates, with the marker field
discarded) when a lift row exists, and by the literal string `NA` four times
otherwise. -/
theorem junction_output_fields (gs : List JGroup)
    (hnum : ∀ g ∈ gs, (pyInt? g.start).isSome)
    (hu : gs.Pairwise (fun a b => a.key ≠ b.key))
    (g : JGroup) (hg : g ∈ gs) :
    (mergeJoin (encode gs)).filter (fun r => decide (r.take 4 = g.key)) =
      [g.originRow ++ (match g.lift with
                       | some m => ((g.liftRow m).drop 4).take 4
                       | none => NA4)] := by
  have hexp : g.expectedOut =
      g.originRow ++ (match g.lift with
                      | some m => ((g.liftRow m).drop 4).take 4
                      | none => NA4) := by
    cases hl : g.lift <;> simp [JGroup.expectedOut, JGroup.liftRow, hl]
  by_cases hlen : 2 ≤ (encode gs).length
  · rw [mergeJoin_encode gs hu.chain' hlen, List.filter_map]
    simp only [Function.comp_def, take_four_expectedOut]
    rw [filter_key_eq_singleton hu hg, List.map_singleton, hexp]
  · rcases gs with _ | ⟨g1, gs1⟩
    · simp at hg
    · obtain ⟨hgs1, hl1⟩ := encode_short g1 gs1 (by omega)
      subst hgs1
      have hgeq : g = g1 := by simpa using hg
      subst hgeq
      have henc : encode [g] = [g.originRow] := by
        simp [encode, JGroup.rows, hl1]
      rw [henc, mergeJoin_single (by simp [JGroup.originRow])]
      have hyes : (g.originRow ++ NA4).take 4 = g.key := rfl
      have hnotNA : ¬((([""] : Row) ++ NA4).take 4 = g.key) := by
        simp only [NA4, JGroup.key, List.cons_append, List.nil_append,
          List.take, List.cons.injEq, and_true]
        intro heq
        have hs : g.start = "NA" := heq.2.1.symm
        have hnum1 := hnum g (by simp)
        rw [hs] at hnum1
        exact absurd hnum1 (by decide)
      rw [List.filter_cons, List.filter_cons, List.filter_nil]
      simp only [decide_eq_true_eq]
      rw [if_pos hyes, if_neg hnotNA]
      simp [hl1]

/-- Witness for `junction_output_fields` at a concrete two-junction stream,
checking the unmapped junction's `NA` tail. -/
theorem junction_output_fields_witness :
    (mergeJoin (encode [gPairedFix, gPlainFix])).filter
        (fun r => decide (r.take 4 = gPlainFix.key)) =
      [gPlainFix.originRow ++ (match gPlainFix.lift with
                               | some m => ((gPlainFix.liftRow m).drop 4).take 4
                               | none => NA4)] :=
  junction_output_fields [gPairedFix, gPlainFix] (by decide) (by decide)
    gPlainFix (by decide)

/-- Claim C6 counterexample: a stream in which rows with identical
`(chrom, start, end)` are contiguous — here all four rows share that triple —
and every junction's 4-field key is unique, yet the emitter pairs nothing:
the `+`-strand junction's expected paired output row is absent, and its lift
row is emitted standalone with an `NA` tail.  3-field contiguity is therefore
not a sufficient adjacency condition. -/
theorem three_field_contiguity_cex :
    (oPlus ++ ["chrX", "6", "11", "+"]) ∉ mergeJoin [oPlus, oMinus, lPlus, lMinus] ∧
      (lPlus ++ NA4) ∈ mergeJoin [oPlus, oMinus, lPlus, lMinus] := by
  decide

/-- Claim C6 (amended): contiguity of rows with identical 4-field key is a
sufficient adjacency condition: whenever each junction's two rows are
adjacent (in either order) and 4-field keys are unique, every lift row is
paired with its matching origin row — the junction's output row carries the
origin row's fields followed by the lift row's fields 5-8. -/
theorem four_field_adjacency_pairs (gs : List JGroup)
    (hu : gs.Pairwise (fun a b => a.key ≠ b.key))
    (g : JGroup) (hg : g ∈ gs) (m : LiftFields) (hm : g.lift = some m) :
    g.originRow ++ ((g.liftRow m).drop 4).take 4 ∈ mergeJoin (encode gs) := by
  rw [mergeJoin_encode gs hu.chain' (two_le_encode_of_lift hg hm)]
  refine List.mem_map.mpr ⟨g, hg, ?_⟩
  simp [JGroup.expectedOut, JGroup.liftRow, hm]

/-- Witness for `four_field_adjacency_pairs` with the lift row sorted first. -/
theorem four_field_adjacency_pairs_witness :
    ({ gPairedFix with liftFirst := true } : JGroup).originRow ++
        ((({ gPairedFix with liftFirst := true } : JGroup).liftRow mFix).drop 4).take 4 ∈
      mergeJoin (encode [{ gPairedFix with liftFirst := true }, gPlainFix]) :=
  four_field_adjacency_pairs [{ gPairedFix with liftFirst := true }, gPlainFix]
    (by decide) _ (by decide) mFix (by decide)

/-- Claim C8 counterexample: a lift row with no matching origin row is not a
fatal integrity fault: the emitter happily emits an output row derived from
it (the lift row's nine fields with four `NA` appended). -/
theorem lone_lift_row_emitted_cex :
    (loneLift ++ NA4) ∈ mergeJoin [loneLift] := by
  decide

/-- Claim C8 (amended): the emitter performs no integrity checking at all: a
stream consisting of a single row of any shape — a lone lift row included —
is emitted with four `NA` fields appended, followed by the spurious row built
from the unchecked second lookahead buffer; the merge never aborts. -/
theorem lone_row_no_fault (r : Row) (h : r ≠ [""]) :
    mergeJoin [r] = [r ++ NA4, [""] ++ NA4] :=
  mergeJoin_single h

/-- Witness for `lone_row_no_fault` at a concrete lone lift row. -/
theorem lone_row_no_fault_witness :
    mergeJoin [loneLift] = [loneLift ++ NA4, [""] ++ NA4] :=
  lone_row_no_fault loneLift (by decide)

/-- Claim C3: the code's actual behaviour on degenerate streams.  On the
empty stream the two unchecked initial reads both hold the `[""]` sentinel,
which passes the key comparison, so one empty line is printed; on a
single-row stream the row is emitted unmapped but is followed by a spurious
`5`-field line `"\tNA\tNA\tNA\tNA"` built from the sentinel — contradicting
the documented emit-nothing / emit-exactly-one-row behaviour. -/
theorem degenerate_stream_eval :
    mergeJoin [] = [[""]] ∧
      mergeJoin [originFix] = [originFix ++ NA4, ["", "NA", "NA", "NA", "NA"]] := by
  decide

theorem mergeLoop_pair_blank {j1 j2 : Row} (hk : j1.take 4 = j2.take 4)
    (post : List Row) : mergeLoop j1 j2 ([""] :: post) = [pairOut j1 j2] := by
  conv_lhs => rw [mergeLoop.eq_def]
  rw [if_pos hk]
  simp

theorem mergeLoop_pair_snd_blank {j1 j2 r1 : Row} (hk : j1.take 4 = j2.take 4)
    (h1 : r1 ≠ [""]) (post : List Row) :
    mergeLoop j1 j2 (r1 :: [""] :: post) = [pairOut j1 j2, r1 ++ NA4] := by
  conv_lhs => rw [mergeLoop.eq_def]
  rw [if_pos hk]
  simp [h1]

theorem mergeLoop_else_blank {j1 j2 : Row} (hk : j1.take 4 ≠ j2.take 4)
    (post : List Row) :
    mergeLoop j1 j2 ([""] :: post) = [j1 ++ NA4, j2 ++ NA4] := by
  conv_lhs => rw [mergeLoop.eq_def]
  rw [if_neg hk]
  simp

/-- Reading a blank (or whitespace-only) line inside the loop body is
indistinguishable from end of file: the loop's output on `mid ++ [""] :: post`
equals its output on `mid` alone, whatever follows the blank line. -/
theorem mergeLoop_blank :
    ∀ (n : Nat) (mid : List Row), mid.length ≤ n →
      ∀ (j1 j2 : Row) (post : List Row),
        mergeLoop j1 j2 (mid ++ [""] :: post) = mergeLoop j1 j2 mid := by
  intro n
  induction n with
  | zero =>
    intro mid hm j1 j2 post
    have hmid : mid = [] := List.length_eq_zero.mp (Nat.le_zero.mp hm)
    subst hmid
    by_cases hk : j1.take 4 = j2.take 4
    · rw [List.nil_append, mergeLoop_pair_blank hk, mergeLoop_pair_nil hk]
    · rw [List.nil_append, mergeLoop_else_blank hk, mergeLoop_else_nil hk]
  | succ n ih =>
    intro mid hm j1 j2 post
    by_cases hk : j1.take 4 = j2.take 4
    · rcases mid with _ | ⟨r1, mid1⟩
      · rw [List.nil_append, mergeLoop_pair_blank hk, mergeLoop_pair_nil hk]
      · by_cases h1 : r1 = [""]
        · subst h1
          rw [List.cons_append, mergeLoop_pair_blank hk, mergeLoop_pair_blank hk]
        · rcases mid1 with _ | ⟨r2, mid2⟩
          · rw [List.cons_append, List.nil_append,
              mergeLoop_pair_snd_blank hk h1, mergeLoop_pair_one hk h1]
          · by_cases h2 : r2 = [""]
            · subst h2
              rw [List.cons_append, List.cons_append,
                mergeLoop_pair_snd_blank hk h1, mergeLoop_pair_snd_blank hk h1]
            · have hb : mid2.length ≤ n := by
                simp only [List.length_cons] at hm
                omega
              rw [List.cons_append, List.cons_append,
                mergeLoop_pair_cons hk h1 h2, mergeLoop_pair_cons hk h1 h2,
                ih mid2 hb r1 r2 post]
    · rcases mid with _ | ⟨r, mid1⟩
      · rw [List.nil_append, mergeLoop_else_blank hk, mergeLoop_else_nil hk]
      · by_cases hr : r = [""]
        · subst hr
          rw [List.cons_append, mergeLoop_else_blank hk, mergeLoop_else_blank hk]
        · have hb : mid1.length ≤ n := by
            simp only [List.length_cons] at hm
            omega
          rw [List.cons_append, mergeLoop_else_cons hk hr,
            mergeLoop_else_cons hk hr, ih mid1 hb j2 r post]

/-- Claim C10 counterexample: a blank line among the first two lines of the
stream is not treated as end of stream — the two initial reads are never
tested for emptiness — so with a blank first line the row that follows it
still receives an output row. -/
theorem blank_line_first_position_cex :
    (originFix ++ NA4) ∈ mergeJoin [[""], originFix] := by
  decide

/-- Claim C10 (amended): a blank or whitespace-only line read by the loop body
— that is, the third or later line of the sorted stream — terminates the
merge exactly as end of file does: the output on the longer stream equals the
output on the stream truncated before the blank line, and no output row is
emitted for any row after it.  A blank line among the first two lines is
instead consumed as an ordinary row. -/
theorem blank_line_truncates (r1 r2 : Row) (mid post : List Row) :
    mergeJoin (r1 :: r2 :: (mid ++ [""] :: post)) = mergeJoin (r1 :: r2 :: mid) := by
  rw [mergeJoin_cons_cons, mergeJoin_cons_cons]
  exact mergeLoop_blank mid.length mid le_rfl r1 r2 post

/-- Claim C7: the Normalizer's start conversion (line 80, subtract 1) followed
by the Stream Merger's reconstruction (line 115, re-add 1 to the start parsed
back from the synthetic name) restores the original 1-based start exactly:
the minus-1/plus-1 pair is an exact inverse on Python's arbitrary-precision
integers. -/
theorem start_roundtrip (s : Int) : restoreStart (normalizeStart s) = s := by
  simp [restoreStart, normalizeStart]

theorem data_append (a b : String) : (a ++ b).data = a.data ++ b.data := rfl

theorem mk_data (p : String) : String.mk p.data = p := rfl

theorem splitSemiChars_no_semi :
    ∀ (cs : List Char), ';' ∉ cs → splitSemiChars cs = [cs] := by
  intro cs
  induction cs with
  | nil => intro _; rfl
  | cons c cs ih =>
    intro h
    rw [List.mem_cons, not_or] at h
    rw [splitSemiChars, if_neg (fun he => h.1 he.symm), ih h.2]

theorem splitSemiChars_append :
    ∀ (cs rest : List Char), ';' ∉ cs →
      splitSemiChars (cs ++ ';' :: rest) = cs :: splitSemiChars rest := by
  intro cs
  induction cs with
  | nil =>
    intro rest _
    rw [List.nil_append, splitSemiChars, if_pos rfl]
  | cons c cs ih =>
    intro rest h
    rw [List.mem_cons, not_or] at h
    rw [List.cons_append, splitSemiChars, if_neg (fun he => h.1 he.symm), ih rest h.2]

theorem joinSemi_cons_data (p q : String) (ps : List String) :
    (joinSemi (p :: q :: ps)).data = p.data ++ ';' :: (joinSemi (q :: ps)).data := by
  show ((p ++ ";") ++ joinSemi (q :: ps)).data = _
  rw [data_append, data_append]
  simp

/-- Splitting on the delimiter recovers the joined parts whenever no part
contains the delimiter. -/
theorem splitSemi_joinSemi :
    ∀ (ps : List String), ps ≠ [] → (∀ p ∈ ps, ';' ∉ p.data) →
      splitSemi (joinSemi ps) = ps := by
  intro ps
  induction ps with
  | nil => intro h _; exact absurd rfl h
  | cons p ps ih =>
    intro _ hns
    rcases ps with _ | ⟨q, ps1⟩
    · show splitSemi p = [p]
      unfold splitSemi
      rw [splitSemiChars_no_semi p.data (hns p (by simp))]
      simp [mk_data]
    · unfold splitSemi
      rw [joinSemi_cons_data p q ps1,
        splitSemiChars_append _ _ (hns p (by simp)), List.map_cons]
      have hih := ih (by simp) (fun x hx => hns x (List.mem_cons_of_mem _ hx))
      unfold splitSemi at hih
      rw [hih, mk_data]

/-- Claim C5 counterexample: for the input record `(chr1, 100, 200, +)` at
ordinal 0 the synthetic name is `0;chr1;99;200;+`: its third component is the
DECREMENTED start `99`, not the original 1-based start `100` the claim
asserts. -/
theorem name_encodes_decremented_start_cex :
    junctionName 0 "chr1" 100 "200" "+" = "0;chr1;99;200;+" ∧
      junctionName 0 "chr1" 100 "200" "+" ≠
        joinSemi ["0", "chr1", "100", "200", "+"] := by
  constructor
  · rfl
  · decide

/-- Claim C5 (amended): the synthetic name is the junction's (ordinal index,
chromosome, original start MINUS 1 — the half-open start of line 80 — original
end, strand) joined by `';'`, and, provided no component contains the
delimiter, each component is recoverable by splitting on `';'`. -/
theorem name_components (i : Nat) (chrom : String) (s : Int)
    (endTok strand : String)
    (hi : ';' ∉ (toString i).data) (hc : ';' ∉ chrom.data)
    (hs : ';' ∉ (toString (s - 1)).data) (he : ';' ∉ endTok.data)
    (hstr : ';' ∉ strand.data) :
    splitSemi (junctionName i chrom s endTok strand) =
      [toString i, chrom, toString (s - 1), endTok, strand] := by
  unfold junctionName
  refine splitSemi_joinSemi _ (by simp) ?_
  intro p hp
  simp only [List.mem_cons, List.not_mem_nil, or_false] at hp
  rcases hp with rfl | rfl | rfl | rfl | rfl <;> assumption

/-- Witness for `name_components` at the record `(chr1, 100, 200, +)`. -/
theorem name_components_witness :
    splitSemi (junctionName 0 "chr1" 100 "200" "+") =
      [toString (0 : Nat), "chr1", toString ((100 : Int) - 1), "200", "+"] :=
  name_components 0 "chr1" 100 "200" "+" (by decide) (by decide) (by decide)
    (by decide) (by decide)

/-- Claim C9 counterexample: a line with nine fields — a field count other
than 8 — is NOT rejected: the Record Normalizer accepts it and emits a
normalized line, because no field-count check exists beyond the four indexed
accesses. -/
theorem nine_field_line_accepted_cex :
    isOkB (normalizeRecord 0
      ["chr1", "100", "200", "+", "GT", "AG", "0,1", "5,10", "EXTRA"]) = true := by
  decide

/-- Claim C9 (amended): the Record Normalizer aborts the run exactly on lines
with fewer than 4 fields (`IndexError` on `tokens[0..3]`) or whose second
field is not an integer (`ValueError` from `int()`); the field count is not
otherwise checked, so any line with at least 4 fields and an integer second
field is normalized, field counts other than 8 included. -/
theorem normalize_error_iff (i : Nat) (ts : List String) :
    isOkB (normalizeRecord i ts) = false ↔
      ts.length < 4 ∨ pyInt? (ts.getD 1 "") = none := by
  rcases ts with _ | ⟨a, _ | ⟨b, _ | ⟨c, _ | ⟨d, t⟩⟩⟩⟩
  · simp [normalizeRecord, isOkB, pyInt?]
  · simp [normalizeRecord, isOkB]
  · rcases hb : pyInt? b with _ | v <;>
      simp [normalizeRecord, isOkB, hb, List.getD]
  · rcases hb : pyInt? b with _ | v <;>
      simp [normalizeRecord, isOkB, hb, List.getD]
  · have hred : normalizeRecord i (a :: b :: c :: d :: t) =
        match pyInt? b with
        | none => .error "ValueError"
        | some s =>
          .ok [a, toString (s - 1), c,
               "info_" ++ junctionName i a s c d, "1", d] := rfl
    rcases hb : pyInt? b with _ | v
    · rw [hred, hb]
      exact iff_of_true rfl (Or.inr hb)
    · rw [hred, hb]
      refine iff_of_false (by simp [isOkB]) ?_
      rintro (h | h)
      · simp only [List.length_cons] at h
        omega
      · have hgd : (a :: b :: c :: d :: t).getD 1 "" = b := rfl
        rw [hgd, hb] at h
        cases h

/-- Claim C4 counterexample: with the external mapper exiting with status 1
and the external sort succeeding, the run does not abort: it proceeds through
stream merge, sort and merge-join, and produces the full 12-field output row
for the junction. -/
theorem mapper_failure_not_fatal_cex :
    runPipeline 1 0 [["chr1", "49", "150", "info_0;chr1;99;200;+", "1", "+"]]
        [originFix] id =
      .ok [["chr1", "100", "200", "+", "GT", "AG", "0,1", "5,10",
            "chr1", "50", "150", "+"]] := rfl

/-- Claim C4 (amended): the mapper's exit status is ignored — line 89 binds
`subprocess.call`'s return value to `liftover_process` and never inspects it —
so the pipeline proceeds to the stream-merge and sort stages and its result is
identical for every mapper exit status; only the external sort's
`subprocess.check_call` (line 123) aborts on a non-zero status. -/
theorem mapper_exit_ignored (e1 e2 sortExit : Int)
    (hg19Lines : List (List String)) (inLines : List Row)
    (sortFn : List Row → List Row) :
    runPipeline e1 sortExit hg19Lines inLines sortFn =
      runPipeline e2 sortExit hg19Lines inLines sortFn := rfl

end Liftover
